import Mathlib

/-!
Verification development for the AutoForce repository (leapfrog update
controller and pair-similarity kernels).

Part 1 embeds the pair-similarity kernel family of
`theforce/similarity/pair.py`.  Tensors of per-pair quantities are embedded
as lists; per-atom accumulators are functions `Fin n → Vec3`; the scalar
base kernel `kern` and its derivative `kern.leftgrad` are abstract
parameters (the spec declares them external collaborators).  Torch
`index_add` is embedded as a left fold of pointwise updates.
-/

/-- A 3-vector of rationals (one atom's force/gradient entry). -/
abbrev Vec3 : Type := ℚ × ℚ × ℚ

/-- Scalar times 3-vector. -/
def smul3 (a : ℚ) (v : Vec3) : Vec3 := (a * v.1, a * v.2.1, a * v.2.2)

/-- Torch `zeros(n,3).index_add(0, idx, vals)` with the (index, value) rows
zipped into one list: fold of pointwise additive updates. -/
def indexAdd {n : ℕ} (g : Fin n → Vec3) : List (Fin n × Vec3) → (Fin n → Vec3)
  | [] => g
  | (a, v) :: rest => indexAdd (Function.update g a (g a + v)) rest

/-- One selected (one-way) pair of a structure: endpoint atom indices `i, j`,
unit vector `u` (from `p.u[m1]`) and distance `d` (from `p.d[m1]`). -/
structure PairS (n : ℕ) where
  i : Fin n
  j : Fin n
  u : Vec3
  d : ℚ
deriving DecidableEq

/-- `DistanceSimilarity.leftgrad(p,q)`: per pair `c = (kern.leftgrad(d,d')
[:,None] * u[...,None]).sum(-1)`, scattered by
`zeros(natoms,3).index_add(0, i, -c).index_add(0, j, c)`. -/
def dsLeftgrad (kL : ℚ → ℚ → ℚ) {n : ℕ} (ps : List (PairS n)) (qd : List ℚ) :
    Fin n → Vec3 :=
  let c : PairS n → Vec3 := fun p => smul3 ((qd.map (fun b => kL p.d b)).sum) p.u
  indexAdd (indexAdd (fun _ => (0 : Vec3)) (ps.map (fun p => (p.i, -(c p)))))
    (ps.map (fun p => (p.j, c p)))

/-- `CoulombPairSimilarity.func(p,q)`: `(kern(d,d')/(d*d'.t())).sum()`. -/
def coulombFunc (kern : ℚ → ℚ → ℚ) (pd qd : List ℚ) : ℚ :=
  (pd.map (fun a => (qd.map (fun b => kern a b / (a * b))).sum)).sum

/-- `RepulsiveCoreSimilarity.func(p,q)`: `(kern(d,d')/(d*d'.t())**eta).sum()`
(integer exponent `eta`, default 1 in the source). -/
def repulsiveFunc (eta : ℤ) (kern : ℚ → ℚ → ℚ) (pd qd : List ℚ) : ℚ :=
  (pd.map (fun a => (qd.map (fun b => kern a b / (a * b) ^ eta)).sum)).sum

/-- `CoulombPairSimilarity.leftgrad(p,q)`: per pair
`c = ((kern.leftgrad - kern/d)/(d*d')) summed over q`, times `u`, scattered by
`-zeros.index_add(0, i, c).index_add(0, j, -c)`. -/
def coulombLeftgrad (kern kL : ℚ → ℚ → ℚ) {n : ℕ} (ps : List (PairS n))
    (qd : List ℚ) : Fin n → Vec3 :=
  let c : PairS n → Vec3 := fun p =>
    smul3 ((qd.map (fun b => (kL p.d b - kern p.d b / p.d) / (p.d * b))).sum) p.u
  fun a =>
    -(indexAdd (indexAdd (fun _ => (0 : Vec3)) (ps.map (fun p => (p.i, c p))))
        (ps.map (fun p => (p.j, -(c p))))) a

/-- `RepulsiveCoreSimilarity.leftgrad(p,q)`: per pair
`c = ((kern.leftgrad - eta*kern/d)/(d*d')**eta) summed over q`, times `u`,
scattered by `-zeros.index_add(0, i, c).index_add(0, j, -c)`. -/
def repulsiveLeftgrad (eta : ℤ) (kern kL : ℚ → ℚ → ℚ) {n : ℕ}
    (ps : List (PairS n)) (qd : List ℚ) : Fin n → Vec3 :=
  let c : PairS n → Vec3 := fun p =>
    smul3 ((qd.map (fun b =>
      (kL p.d b - (eta : ℚ) * kern p.d b / p.d) / (p.d * b) ^ eta)).sum) p.u
  fun a =>
    -(indexAdd (indexAdd (fun _ => (0 : Vec3)) (ps.map (fun p => (p.i, c p))))
        (ps.map (fun p => (p.j, -(c p))))) a

/-- `LogDistanceKernel.descriptor(r)` for a single relative-position vector:
`d = sqrt((r**2).sum())`, returns `(d.log(), r/d**2)`. -/
noncomputable def logDistanceDescriptor (r : ℝ × ℝ × ℝ) : ℝ × (ℝ × ℝ × ℝ) :=
  let d : ℝ := Real.sqrt (r.1 ^ 2 + r.2.1 ^ 2 + r.2.2 ^ 2)
  (Real.log d, (r.1 / d ^ 2, r.2.1 / d ^ 2, r.2.2 / d ^ 2))

/-- The raw distance `|r|` (the same square root the descriptor computes). -/
noncomputable def rawDistance (r : ℝ × ℝ × ℝ) : ℝ :=
  Real.sqrt (r.1 ^ 2 + r.2.1 ^ 2 + r.2.2 ^ 2)


/-!
Part 2 embeds the `Leapfrog` controller of `theforce/dynamics/leapfrog.py`.

The sparse-GP surrogate (`PosteriorPotential` of
`theforce/regression/gppotential.py`) is not under the embedded sources; the
spec declares it an external collaborator, so its primitives are modelled
from the spec (see the doc comments below).  Its internal acceptance
decisions (the change magnitude reported by an inducing insertion, the
accept/reject outcome of a structure insertion, leakage scores, reference
energies, random draws) are inputs, supplied by an oracle record of streams
consumed in call order.  Externally observable actions (reference
evaluations, insertions, pops) are recorded in an event trace.
-/

/-- A structure snapshot: the identity of the atoms it was taken from and
whether it carries surrogate-predicted (fake) energy/forces. -/
structure Snap where
  sid : ℕ
  fake : Bool
deriving DecidableEq

/-- Modelled from the spec: the surrogate's state visible to the
controller, a training set of whole structures (`data`) and a list of
inducing local environments (`X`), both LIFO for removal (spec section 3). -/
structure GP where
  data : List Snap
  X : List ℕ
deriving DecidableEq

/-- Observable events of one controller action. -/
inductive Ev where
  | refEval (sid : ℕ)
  | addAtoms (s : Snap) (acc : Bool)
  | addInd (loc : ℕ) (change : ℚ) (acc : Bool)
  | popData
  | popInd
  | updateDone (tf : Bool)
deriving DecidableEq

/-- Oracle streams standing for the external collaborators' answers:
per-insertion change magnitudes, structure-insertion accept bits, leakage
scores, reference energies, and Bernoulli draws. -/
structure Orc where
  changes : List ℚ
  accepts : List Bool
  leaks : List ℚ
  refE : List ℚ
  coins : List Bool
deriving DecidableEq

/-- Which update algorithm the controller was configured with. -/
inductive Alg where
  | robust
  | fast
  | fastfast
  | ultrafast
deriving DecidableEq

/-- The `Leapfrog` controller state (its mutable attributes). -/
structure LF where
  gp : GP
  alg : Alg
  step : ℕ
  energy : List ℚ
  temperature : List ℚ
  fp : List ℕ
  fpE : List ℚ
  ext : List ℕ
  volThr : ℤ
  ediff : ℚ
  skip : ℕ
  skipVol : ℕ
  dataPlus : ℤ
  refPlus : ℤ
  sid : ℕ
  nloc : ℕ
  cached : Bool
deriving DecidableEq

/-- `torch.finfo().tiny`, a tiny positive float, as a positive rational. -/
def tinyQ : ℚ := 1 / 10 ^ 38

/-- `Leapfrog.sizes`: `(len(self.model.data), len(self.model.X))`. -/
def LF.sizes (lf : LF) : ℕ × ℕ := (lf.gp.data.length, lf.gp.X.length)

/-- `Leapfrog.volatile`: `len(self._ext) <= self._volatile`. -/
def LF.volatile (lf : LF) : Bool := decide ((lf.ext.length : ℤ) ≤ lf.volThr)

/-- Modelled from the spec: `add_1atoms` attempts to insert one training
structure; whether it is accepted is the surrogate's thresholded decision
(an oracle bit); on acceptance the structure is appended. -/
def GP.add_1atoms (gp : GP) (s : Snap) (acc : Bool) : GP :=
  if acc then { gp with data := gp.data ++ [s] } else gp

/-- Modelled from the spec: `add_1inducing` attempts to insert one inducing
environment with significance threshold `ed`; the reported change magnitude
`ch` is the oracle's answer and the insertion is accepted when the change
reaches the threshold. -/
def GP.add_1inducing (gp : GP) (loc : ℕ) (ed ch : ℚ) : GP :=
  if ed ≤ ch then { gp with X := gp.X ++ [loc] } else gp

/-- Modelled from the spec: `pop_1data` removes the last training
structure. -/
def GP.pop_1data (gp : GP) : GP := { gp with data := gp.data.dropLast }

/-- Modelled from the spec: `pop_1inducing` removes the last inducing
environment. -/
def GP.pop_1inducing (gp : GP) : GP := { gp with X := gp.X.dropLast }

/-- Pop the last `n` entries of a list (n successive `pop_1*` calls). -/
def popN {α : Type} : ℕ → List α → List α
  | 0, l => l
  | n + 1, l => popN n l.dropLast

/-- Result of `snapshot`. -/
structure SnapOut where
  snap : Snap
  lf : LF
  orc : Orc
  tr : List Ev
deriving DecidableEq

/-- `Leapfrog.snapshot(fake, copy)`: a fake snapshot reuses the surrogate's
predicted energy/forces and performs no reference evaluation; a real one
calls the reference calculator (consuming an oracle energy), appends the
step and energy to the fingerprint lists and writes the trajectory file
(the `refEval` event). -/
def snapshot (fake : Bool) (lf : LF) (o : Orc) : SnapOut :=
  if fake then
    ⟨⟨lf.sid, true⟩, lf, o, []⟩
  else
    let e := o.refE.headD 0
    ⟨⟨lf.sid, false⟩,
     { lf with fp := lf.fp ++ [lf.step], fpE := lf.fpE ++ [e] },
     { o with refE := o.refE.tail },
     [Ev.refEval lf.sid]⟩

/-- Result of one controller action. -/
structure AlgOut where
  lf : LF
  orc : Orc
  tr : List Ev
deriving DecidableEq

/-- One `self.model.add_1atoms(new, self.ediff, self.fdiff)` call: consumes
the surrogate's accept bit from the oracle. -/
def add_atoms_step (lf : LF) (o : Orc) (s : Snap) : AlgOut :=
  let acc := o.accepts.headD false
  ⟨{ lf with gp := lf.gp.add_1atoms s acc },
   { o with accepts := o.accepts.tail },
   [Ev.addAtoms s acc]⟩

/-- Result of one inducing-insertion attempt. -/
structure IndOut where
  lf : LF
  orc : Orc
  ev : Ev
  acc : Bool
deriving DecidableEq

/-- One loop body `ediff = self.ediff if self.sizes[1] > 1 else tiny;
change = self.model.add_1inducing(loc, ediff)`, with the acceptance test
`change >= ediff` used by the fast algorithms. -/
def add_inducing_step (lf : LF) (o : Orc) (loc : ℕ) : IndOut :=
  let ed := if 1 < lf.gp.X.length then lf.ediff else tinyQ
  let ch := o.changes.headD 0
  let acc := decide (ed ≤ ch)
  ⟨{ lf with gp := lf.gp.add_1inducing loc ed ch },
   { o with changes := o.changes.tail },
   Ev.addInd loc ch acc, acc⟩

/-- `for loc in new.loc: ... add_1inducing ...` of `algorithm_robust`. -/
def robustLoop : List ℕ → LF → Orc → AlgOut
  | [], lf, o => ⟨lf, o, []⟩
  | loc :: rest, lf, o =>
    let st := add_inducing_step lf o loc
    let r := robustLoop rest st.lf st.orc
    ⟨r.lf, r.orc, st.ev :: r.tr⟩

/-- `Leapfrog.algorithm_robust(datafirst)` (the default call site passes
`datafirst=True`): reference snapshot, insert the structure before or after
the inducing loop. -/
def algorithm_robust (datafirst : Bool) (lf : LF) (o : Orc) : AlgOut :=
  let s := snapshot false lf o
  let a1 := if datafirst then add_atoms_step s.lf s.orc s.snap else ⟨s.lf, s.orc, []⟩
  let l := robustLoop (List.range lf.nloc) a1.lf a1.orc
  let a2 := if datafirst then (⟨l.lf, l.orc, []⟩ : AlgOut) else add_atoms_step l.lf l.orc s.snap
  ⟨a2.lf, a2.orc, s.tr ++ a1.tr ++ l.tr ++ a2.tr⟩

/-- Loop result carrying the `added_refs` counter. -/
structure LoopOut where
  lf : LF
  orc : Orc
  tr : List Ev
  cnt : ℕ
deriving DecidableEq

/-- The exhaustive inducing loop of `algorithm_fast`, counting the attempts
whose change reached the threshold. -/
def fastLoop : List ℕ → LF → Orc → ℕ → LoopOut
  | [], lf, o, cnt => ⟨lf, o, [], cnt⟩
  | loc :: rest, lf, o, cnt =>
    let st := add_inducing_step lf o loc
    let r := fastLoop rest st.lf st.orc (if st.acc then cnt + 1 else cnt)
    ⟨r.lf, r.orc, st.ev :: r.tr, r.cnt⟩

/-- `Leapfrog.algorithm_fast`: exhaustive inducing screening; only if at
least one insertion reached the threshold, a reference snapshot is taken
and inserted into the training data. -/
def algorithm_fast (lf : LF) (o : Orc) : AlgOut :=
  let l := fastLoop (List.range lf.nloc) lf o 0
  if 0 < l.cnt then
    let s := snapshot false l.lf l.orc
    let a := add_atoms_step s.lf s.orc s.snap
    ⟨a.lf, a.orc, l.tr ++ s.tr ++ a.tr⟩
  else
    ⟨l.lf, l.orc, l.tr⟩

/-- Insert index `k` into a list of indices kept in descending score
order. -/
def insertDesc (score : ℕ → ℚ) (k : ℕ) : List ℕ → List ℕ
  | [] => [k]
  | a :: rest => if score a < score k then k :: a :: rest else a :: insertDesc score k rest

/-- `torch.argsort(leaks, descending=True)` as a deterministic sort of the
indices by score, descending. -/
def argsortDesc (s : List ℚ) : List ℕ :=
  (List.range s.length).foldr (insertDesc (fun i => s.getD i 0)) []

/-- `self.model.leakages(locs)`: consumes one oracle score per local
environment. -/
def take_leakages (lf : LF) (o : Orc) : List ℚ × Orc :=
  ((List.range lf.nloc).map (fun i => o.leaks.getD i 0),
   { o with leaks := o.leaks.drop lf.nloc })

/-- The ranked inducing loop shared by `algorithm_fastfast` and
`algorithm_ultrafast`: processes indices in leakage order and stops at the
first attempt whose change falls below the threshold. -/
def ffLoop : List ℕ → LF → Orc → ℕ → LoopOut
  | [], lf, o, cnt => ⟨lf, o, [], cnt⟩
  | k :: rest, lf, o, cnt =>
    let st := add_inducing_step lf o k
    if st.acc then
      let r := ffLoop rest st.lf st.orc (cnt + 1)
      ⟨r.lf, r.orc, st.ev :: r.tr, r.cnt⟩
    else
      ⟨st.lf, st.orc, [st.ev], cnt⟩

/-- `Leapfrog.algorithm_fastfast`: ranked early-exit screening, then the
same reference-and-insert tail as `algorithm_fast`. -/
def algorithm_fastfast (lf : LF) (o : Orc) : AlgOut :=
  let s := take_leakages lf o
  let l := ffLoop (argsortDesc s.1) lf s.2 0
  if 0 < l.cnt then
    let sn := snapshot false l.lf l.orc
    let a := add_atoms_step sn.lf sn.orc sn.snap
    ⟨a.lf, a.orc, l.tr ++ sn.tr ++ a.tr⟩
  else
    ⟨l.lf, l.orc, l.tr⟩

/-- `Leapfrog.algorithm_ultrafast`: ranked early-exit screening; if any
insertion reached the threshold, tentatively add a fake snapshot; if the
data count actually grew, pop it, take a real reference snapshot of the
same structure and insert that. -/
def algorithm_ultrafast (lf : LF) (o : Orc) : AlgOut :=
  let s := take_leakages lf o
  let l := ffLoop (argsortDesc s.1) lf s.2 0
  if 0 < l.cnt then
    let a := l.lf.gp.data.length
    let sf := snapshot true l.lf l.orc
    let a1 := add_atoms_step sf.lf sf.orc sf.snap
    if a < a1.lf.gp.data.length then
      let lf4 := { a1.lf with gp := a1.lf.gp.pop_1data }
      let sr := snapshot false lf4 a1.orc
      let a2 := add_atoms_step sr.lf sr.orc sr.snap
      ⟨a2.lf, a2.orc, l.tr ++ sf.tr ++ a1.tr ++ [Ev.popData] ++ sr.tr ++ a2.tr⟩
    else
      ⟨a1.lf, a1.orc, l.tr ++ sf.tr ++ a1.tr⟩
  else
    ⟨l.lf, l.orc, l.tr⟩

/-- Dispatch on the configured algorithm (`self.algorithm`). -/
def runAlg : Alg → LF → Orc → AlgOut
  | .robust => algorithm_robust true
  | .fast => algorithm_fast
  | .fastfast => algorithm_fastfast
  | .ultrafast => algorithm_ultrafast

/-- Result of `update_model`. -/
structure UMOut where
  tf : Bool
  lf : LF
  orc : Orc
  tr : List Ev
deriving DecidableEq

/-- `Leapfrog.update_model`: sizes before/after, robust while volatile,
record the additions in `data_plus`/`ref_plus`, clear the calculator cache
when anything was added, return whether anything was added. -/
def update_model (lf : LF) (o : Orc) : UMOut :=
  let s1 := lf.sizes
  let r := if lf.volatile then algorithm_robust true lf o else runAlg lf.alg lf o
  let dp : ℤ := (r.lf.gp.data.length : ℤ) - (s1.1 : ℤ)
  let rp : ℤ := (r.lf.gp.X.length : ℤ) - (s1.2 : ℤ)
  let tf := decide (0 < dp) || decide (0 < rp)
  ⟨tf,
   { r.lf with dataPlus := dp, refPlus := rp,
               cached := if tf then false else r.lf.cached },
   r.orc, r.tr⟩

/-- Result of `undo_update`. -/
structure UUOut where
  lf : LF
  tr : List Ev
deriving DecidableEq

/-- `Leapfrog.undo_update`: pop `data_plus` training structures, then
`ref_plus` inducing environments; the recorded counts are not reset. -/
def undo_update (lf : LF) : UUOut :=
  let d := lf.dataPlus.toNat
  let i := lf.refPlus.toNat
  ⟨{ lf with gp := ⟨popN d lf.gp.data, popN i lf.gp.X⟩ },
   List.replicate d Ev.popData ++ List.replicate i Ev.popInd⟩

/-- `np.random.choice([True, False], p=[prob, 1-prob])`: deterministic at
the endpoints, an oracle coin otherwise. -/
def bern (prob : ℚ) (o : Orc) : Bool × Orc :=
  if prob = 1 then (true, o)
  else if prob = 0 then (false, o)
  else (o.coins.headD false, { o with coins := o.coins.tail })

/-- Result of `doit`. -/
structure DOut where
  b : Bool
  lf : LF
  orc : Orc
deriving DecidableEq

/-- `Leapfrog.doit(prob)`: flag an extremum from the last three energies
unless the previous step was itself flagged; then decide whether to update
(the state change is the possible append to `_ext`). -/
def doit (prob : ℚ) (lf : LF) (o : Orc) : DOut :=
  let n := lf.energy.length
  let E := fun k => lf.energy.getD k 0
  let flag : Bool :=
    if 3 ≤ n then
      if (E (n - 1) - E (n - 2)) * (E (n - 2) - E (n - 3)) < 0 then
        if lf.ext ≠ [] ∧ (lf.step : ℤ) - (lf.ext.getLastD 0 : ℤ) = 1 then false
        else true
      else false
    else false
  let last : ℕ := if lf.fp = [] then 0 else lf.fp.getLastD 0
  if flag then
    let lf' := { lf with ext := lf.ext ++ [lf.step] }
    if (!lf'.volatile) && decide ((lf.step : ℤ) - (last : ℤ) < (lf.skip : ℤ)) then
      ⟨false, lf', o⟩
    else
      let bo := bern prob o
      ⟨bo.1, lf', bo.2⟩
  else
    if lf.volatile &&
        (decide (lf.step = 0 ∧ lf.fp = []) ||
         decide ((lf.skipVol : ℤ) < (lf.step : ℤ) - (last : ℤ))) then
      ⟨true, lf, o⟩
    else
      ⟨false, lf, o⟩

/-- Per-step environment produced by `self.dyn.run(1)` and the subsequent
queries: potential energy, temperature, and the (flattened) stress
tensor. -/
structure StepIn where
  e : ℚ
  T : ℚ
  stress : List ℚ
deriving DecidableEq

/-- `np.array(l).mean()`. -/
def qMean (l : List ℚ) : ℚ := l.sum / (l.length : ℚ)

/-- Python `l[-n:]` for `n ≥ 1`: the last `n` elements. -/
def lastN {α : Type} (n : ℕ) (l : List α) : List α := l.drop (l.length - n)

/-- Componentwise sum of two stress rows. -/
def addVec (a b : List ℚ) : List ℚ := List.zipWith (· + ·) a b

/-- `np.concatenate(stresses).mean(axis=0)`: componentwise mean of the
collected stress rows. -/
def stressMean : List (List ℚ) → List ℚ
  | [] => []
  | s :: rest => (List.foldl addVec s rest).map (fun x => x / ((rest.length + 1 : ℕ) : ℚ))

/-- Number of `updateDone` events in a trace (one per `update_model` call
made from the run loop, whatever its boolean outcome). -/
def countUD (tr : List Ev) : ℕ :=
  (tr.filter (fun e => match e with | Ev.updateDone _ => true | _ => false)).length

/-- Result of `run_updates`: the returned quadruple plus the loop's final
internal state (steps and updates counters, collected stresses, controller
state, oracle, trace). -/
structure ROut where
  res : ℚ × ℚ × ℚ × List ℚ
  steps : ℕ
  updates : ℕ
  stresses : List (List ℚ)
  lf : LF
  orc : Orc
  tr : List Ev
deriving DecidableEq

/-- Intermediate state of one `run_updates` loop iteration. -/
structure ItOut where
  lf : LF
  orc : Orc
  upd : ℕ
  tr : List Ev
deriving DecidableEq

/-- The `while updates < maxupdates` loop of `Leapfrog.run_updates`,
consuming one `StepIn` per simulation step; `none` when the supplied step
stream is exhausted before the loop exits. -/
def run_updates_aux (maxu : ℕ) (prob : ℚ) :
    List StepIn → LF → Orc → ℕ → ℕ → List (List ℚ) → List Ev → Option ROut
  | ins, lf, o, steps, updates, stresses, tr =>
    if updates < maxu then
      match ins with
      | [] => none
      | s :: rest =>
        let it : ItOut :=
          if 0 < prob then
            let d := doit prob lf o
            if d.b then
              let u := update_model d.lf d.orc
              ⟨u.lf, u.orc, updates + 1, tr ++ u.tr ++ [Ev.updateDone u.tf]⟩
            else ⟨d.lf, d.orc, updates, tr⟩
          else ⟨lf, o, updates, tr⟩
        let lf2 := { it.lf with
                     step := it.lf.step + 1,
                     energy := it.lf.energy ++ [s.e],
                     temperature := it.lf.temperature ++ [s.T] }
        run_updates_aux maxu prob rest lf2 it.orc (steps + 1) it.upd
          (stresses ++ [s.stress]) it.tr
    else
      some ⟨((steps : ℚ) / (updates : ℚ),
             qMean (lastN steps lf.energy),
             qMean (lastN steps lf.temperature),
             stressMean stresses),
            steps, updates, stresses, lf, o, tr⟩

/-- `Leapfrog.run_updates(maxupdates, prob)`. -/
def run_updates (maxu : ℕ) (prob : ℚ) (lf : LF) (o : Orc) (ins : List StepIn) :
    Option ROut :=
  run_updates_aux maxu prob ins lf o 0 0 [] []

/-!
Trace observables and concrete instances used by the theorems below.
-/

/-- Is a reference evaluation? -/
def isRef : Ev → Bool
  | Ev.refEval _ => true
  | _ => false

/-- Is a training-structure insertion call? -/
def isAddAtoms : Ev → Bool
  | Ev.addAtoms _ _ => true
  | _ => false

/-- Is a training-structure insertion call with a fake snapshot? -/
def isFakeAdd : Ev → Bool
  | Ev.addAtoms s _ => s.fake
  | _ => false

/-- Is an accepted training-structure insertion of a fake snapshot? -/
def isFakeAddAcc : Ev → Bool
  | Ev.addAtoms s a => s.fake && a
  | _ => false

/-- Is a training-structure insertion call with a real (reference-evaluated)
snapshot of the structure `sid`? -/
def isRealAddOf (sid : ℕ) : Ev → Bool
  | Ev.addAtoms s _ => !s.fake && decide (s.sid = sid)
  | _ => false

/-- Is a training-data pop? -/
def isPopData : Ev → Bool
  | Ev.popData => true
  | _ => false

/-- Is an inducing-insertion attempt whose change reached the threshold? -/
def isAccInd : Ev → Bool
  | Ev.addInd _ _ a => a
  | _ => false

/-- Number of events of a kind in a trace. -/
def countE (p : Ev → Bool) (tr : List Ev) : ℕ := (tr.filter p).length

/-- Projection used by the run-loop counterexample: final updates counter and
final model sizes. -/
def sizesUpdates (r : ROut) : ℕ × ℕ × ℕ :=
  (r.updates, r.lf.gp.data.length, r.lf.gp.X.length)

/-- Controller state for the run-loop scenario: volatile, pretrained sizes
(1 training structure, 2 inducing points), one local environment, no
fingerprints yet. -/
def c2lf : LF :=
  { gp := ⟨[⟨0, false⟩], [0, 1]⟩, alg := Alg.fast, step := 0,
    energy := [1], temperature := [1], fp := [], fpE := [], ext := [],
    volThr := 2, ediff := 1, skip := 10, skipVol := 3,
    dataPlus := 0, refPlus := 0, sid := 0, nloc := 1, cached := true }

/-- Oracle for the run-loop scenario: the surrogate rejects the structure
insertion and reports a change below threshold for the inducing attempt. -/
def c2orc : Orc :=
  { changes := [0], accepts := [false], leaks := [], refE := [5], coins := [] }

/-- One simulation step for the run-loop scenario. -/
def c2ins : List StepIn := [⟨3, 7, [1, 2]⟩]

/-- The run-loop scenario's outcome (total by construction; the dummy
fallback is never reached). -/
def c2out : ROut :=
  match run_updates 1 1 c2lf c2orc c2ins with
  | some r => r
  | none => ⟨(0, 0, 0, []), 0, 0, [], c2lf, c2orc, []⟩

/-- Controller state for the rollback-order scenario: volatile with 2
inducing points already present and one local environment. -/
def c4lf : LF :=
  { gp := ⟨[], [0, 1]⟩, alg := Alg.fast, step := 0,
    energy := [1], temperature := [1], fp := [], fpE := [], ext := [],
    volThr := 2, ediff := 1, skip := 10, skipVol := 3,
    dataPlus := 0, refPlus := 0, sid := 0, nloc := 1, cached := true }

/-- Oracle for the rollback-order scenario: the surrogate accepts the
structure insertion and reports an above-threshold inducing change. -/
def c4orc : Orc :=
  { changes := [1], accepts := [true], leaks := [], refE := [5], coins := [] }

/-- The rollback-order scenario's `update_model` outcome. -/
def c4m : UMOut := update_model c4lf c4orc

/-- Controller state at step 2 of the extremum scenario (energies 1,2,1). -/
def c3lfA : LF :=
  { gp := ⟨[], []⟩, alg := Alg.fast, step := 2,
    energy := [1, 2, 1], temperature := [], fp := [0], fpE := [5], ext := [],
    volThr := 2, ediff := 1, skip := 10, skipVol := 3,
    dataPlus := 0, refPlus := 0, sid := 0, nloc := 0, cached := true }

/-- Controller state at step 3 of the extremum scenario (energies 1,2,1,2,
step 2 already flagged). -/
def c3lfB : LF :=
  { gp := ⟨[], []⟩, alg := Alg.fast, step := 3,
    energy := [1, 2, 1, 2], temperature := [], fp := [0], fpE := [5], ext := [2],
    volThr := 2, ediff := 1, skip := 10, skipVol := 3,
    dataPlus := 0, refPlus := 0, sid := 0, nloc := 0, cached := true }

/-- An empty oracle (the extremum scenario consumes nothing). -/
def c3orc : Orc := { changes := [], accepts := [], leaks := [], refE := [], coins := [] }

/-- A small controller state exercising the fast and ultrafast algorithms in
witnesses: not volatile, 2 inducing points, two local environments. -/
def c5lf : LF :=
  { gp := ⟨[⟨0, false⟩], [0, 1]⟩, alg := Alg.fast, step := 4,
    energy := [1, 2, 3], temperature := [1], fp := [0], fpE := [5], ext := [1, 2, 3],
    volThr := 2, ediff := 1, skip := 10, skipVol := 3,
    dataPlus := 0, refPlus := 0, sid := 7, nloc := 2, cached := true }

/-- Oracle for the fast-algorithm witness: the first inducing attempt is
above threshold, the second below; the structure insertion is accepted. -/
def c5orc : Orc :=
  { changes := [1, 0], accepts := [true], leaks := [2, 1], refE := [5], coins := [] }

/-- Oracle for the ultrafast witness: one above-threshold inducing attempt,
the tentative fake insertion accepted, then the real insertion accepted. -/
def c6orc : Orc :=
  { changes := [1, 0], accepts := [true, true], leaks := [2, 1], refE := [5], coins := [] }

/-- The squared norm of a 3-vector of reals. -/
noncomputable def normSq (r : ℝ × ℝ × ℝ) : ℝ := r.1 ^ 2 + r.2.1 ^ 2 + r.2.2 ^ 2

/-- Is an `update_model` completion event (only the run loops emit it)? -/
def isUD : Ev → Bool
  | Ev.updateDone _ => true
  | _ => false

/-- Is an inducing-insertion attempt (of any outcome)? -/
def isInd : Ev → Bool
  | Ev.addInd _ _ _ => true
  | _ => false

/-!
Theorems.  First the generic lemmas about the embedded tensor scatter and
the controller's building blocks, then one theorem per claim.
-/

section IndexAddLemmas

lemma sum_update_add {n : ℕ} (g : Fin n → Vec3) (a : Fin n) (v : Vec3) :
    (∑ x, Function.update g a (g a + v) x) = (∑ x, g x) + v := by
  classical
  rw [Finset.sum_update_of_mem (Finset.mem_univ a),
    Finset.sdiff_singleton_eq_erase,
    ← Finset.add_sum_erase Finset.univ g (Finset.mem_univ a)]
  abel

lemma sum_indexAdd {n : ℕ} (l : List (Fin n × Vec3)) (g : Fin n → Vec3) :
    (∑ x, indexAdd g l x) = (∑ x, g x) + (l.map Prod.snd).sum := by
  induction l generalizing g with
  | nil => simp [indexAdd]
  | cons hd tl ih =>
    obtain ⟨a, v⟩ := hd
    simp only [indexAdd, List.map_cons, List.sum_cons]
    rw [ih, sum_update_add]
    abel

lemma sum_map_neg_vec {α : Type} (l : List α) (f : α → Vec3) :
    (l.map (fun p => -(f p))).sum = -((l.map f).sum) := by
  induction l with
  | nil => simp
  | cons hd tl ih => simp [ih]; abel

end IndexAddLemmas

section TraceLemmas

lemma countE_append (p : Ev → Bool) (a b : List Ev) :
    countE p (a ++ b) = countE p a + countE p b := by
  simp [countE, List.filter_append]

lemma countE_eq_zero {p : Ev → Bool} {tr : List Ev}
    (h : ∀ e ∈ tr, p e = false) : countE p tr = 0 := by
  simp only [countE, List.length_eq_zero]
  exact List.filter_eq_nil_iff.mpr (by intro a ha; simp [h a ha])

lemma countUD_eq (tr : List Ev) : countUD tr = countE isUD tr := by
  induction tr with
  | nil => rfl
  | cons e rest ih =>
    cases e <;> simp [countUD, countE, isUD, List.filter_cons] at ih ⊢ <;> omega

lemma isInd_not_other {e : Ev} (h : isInd e = true) :
    isRef e = false ∧ isAddAtoms e = false ∧ isPopData e = false ∧
    isUD e = false ∧ isFakeAdd e = false ∧ isFakeAddAcc e = false ∧
    (∀ s, isRealAddOf s e = false) := by
  cases e <;> simp_all [isInd, isRef, isAddAtoms, isPopData, isUD,
    isFakeAdd, isFakeAddAcc, isRealAddOf]

end TraceLemmas

section ComponentLemmas

lemma snapshot_lf (fake : Bool) (lf : LF) (o : Orc) :
    (snapshot fake lf o).lf.gp = lf.gp ∧ (snapshot fake lf o).lf.sid = lf.sid := by
  cases fake <;> simp [snapshot]

lemma snapshot_tr_real (lf : LF) (o : Orc) :
    (snapshot false lf o).tr = [Ev.refEval lf.sid] := by
  simp [snapshot]

lemma snapshot_tr_fake (lf : LF) (o : Orc) :
    (snapshot true lf o).tr = [] := by
  simp [snapshot]

lemma snapshot_snap (fake : Bool) (lf : LF) (o : Orc) :
    (snapshot fake lf o).snap = ⟨lf.sid, fake⟩ := by
  cases fake <;> simp [snapshot]

lemma add_atoms_step_lf (lf : LF) (o : Orc) (s : Snap) :
    (add_atoms_step lf o s).lf.gp.X = lf.gp.X ∧
    (add_atoms_step lf o s).lf.sid = lf.sid ∧
    lf.gp.data.length ≤ (add_atoms_step lf o s).lf.gp.data.length ∧
    (add_atoms_step lf o s).lf.gp.data.length ≤ lf.gp.data.length + 1 := by
  simp only [add_atoms_step, GP.add_1atoms]
  split <;> simp

lemma add_atoms_step_tr (lf : LF) (o : Orc) (s : Snap) :
    (add_atoms_step lf o s).tr = [Ev.addAtoms s (o.accepts.headD false)] := by
  simp [add_atoms_step]

lemma add_atoms_step_data_of_acc (lf : LF) (o : Orc) (s : Snap) :
    (add_atoms_step lf o s).lf.gp.data.length =
      lf.gp.data.length + (if o.accepts.headD false then 1 else 0) := by
  simp only [add_atoms_step, GP.add_1atoms]
  split <;> simp_all

lemma add_inducing_step_lf (lf : LF) (o : Orc) (loc : ℕ) :
    (add_inducing_step lf o loc).lf.gp.data = lf.gp.data ∧
    (add_inducing_step lf o loc).lf.sid = lf.sid ∧
    lf.gp.X.length ≤ (add_inducing_step lf o loc).lf.gp.X.length := by
  simp only [add_inducing_step, GP.add_1inducing]
  split <;> split <;> simp

lemma add_inducing_step_ev (lf : LF) (o : Orc) (loc : ℕ) :
    isInd (add_inducing_step lf o loc).ev = true ∧
    isAccInd (add_inducing_step lf o loc).ev = (add_inducing_step lf o loc).acc := by
  simp [add_inducing_step, isInd, isAccInd]

end ComponentLemmas

section LoopLemmas

lemma countE_cons (p : Ev → Bool) (e : Ev) (tr : List Ev) :
    countE p (e :: tr) = (if p e then 1 else 0) + countE p tr := by
  simp only [countE, List.filter_cons]
  split <;> simp <;> omega

lemma robustLoop_spec (locs : List ℕ) : ∀ (lf : LF) (o : Orc),
    (robustLoop locs lf o).lf.gp.data = lf.gp.data ∧
    lf.gp.X.length ≤ (robustLoop locs lf o).lf.gp.X.length ∧
    (robustLoop locs lf o).lf.sid = lf.sid ∧
    ∀ e ∈ (robustLoop locs lf o).tr, isInd e = true := by
  induction locs with
  | nil => intro lf o; simp [robustLoop]
  | cons a rest ih =>
    intro lf o
    simp only [robustLoop]
    obtain ⟨h1, h2, h3⟩ := add_inducing_step_lf lf o a
    obtain ⟨r1, r2, r3, r4⟩ := ih (add_inducing_step lf o a).lf (add_inducing_step lf o a).orc
    have hd : (robustLoop rest (add_inducing_step lf o a).lf
        (add_inducing_step lf o a).orc).lf.gp.data = lf.gp.data := by rw [r1, h1]
    have hx := congrArg List.length h1
    refine ⟨hd, by omega, by rw [r3, h2], ?_⟩
    intro e he
    simp only [List.mem_cons] at he
    rcases he with rfl | he
    · exact (add_inducing_step_ev lf o a).1
    · exact r4 e he

lemma fastLoop_spec (locs : List ℕ) : ∀ (lf : LF) (o : Orc) (cnt : ℕ),
    (fastLoop locs lf o cnt).lf.gp.data = lf.gp.data ∧
    lf.gp.X.length ≤ (fastLoop locs lf o cnt).lf.gp.X.length ∧
    (fastLoop locs lf o cnt).lf.sid = lf.sid ∧
    (∀ e ∈ (fastLoop locs lf o cnt).tr, isInd e = true) ∧
    (fastLoop locs lf o cnt).cnt = cnt + countE isAccInd (fastLoop locs lf o cnt).tr := by
  induction locs with
  | nil => intro lf o cnt; simp [fastLoop, countE]
  | cons a rest ih =>
    intro lf o cnt
    simp only [fastLoop]
    obtain ⟨h1, h2, h3⟩ := add_inducing_step_lf lf o a
    obtain ⟨he1, he2⟩ := add_inducing_step_ev lf o a
    obtain ⟨r1, r2, r3, r4, r5⟩ := ih (add_inducing_step lf o a).lf
      (add_inducing_step lf o a).orc
      (if (add_inducing_step lf o a).acc then cnt + 1 else cnt)
    refine ⟨by rw [r1, h1], by omega, by rw [r3, h2], ?_, ?_⟩
    · intro e he
      simp only [List.mem_cons] at he
      rcases he with rfl | he
      · exact he1
      · exact r4 e he
    · rw [countE_cons, he2, r5]
      split <;> omega

lemma ffLoop_spec (q : List ℕ) : ∀ (lf : LF) (o : Orc) (cnt : ℕ),
    (ffLoop q lf o cnt).lf.gp.data = lf.gp.data ∧
    lf.gp.X.length ≤ (ffLoop q lf o cnt).lf.gp.X.length ∧
    (ffLoop q lf o cnt).lf.sid = lf.sid ∧
    (∀ e ∈ (ffLoop q lf o cnt).tr, isInd e = true) ∧
    (ffLoop q lf o cnt).cnt = cnt + countE isAccInd (ffLoop q lf o cnt).tr := by
  induction q with
  | nil => intro lf o cnt; simp [ffLoop, countE]
  | cons a rest ih =>
    intro lf o cnt
    obtain ⟨h1, h2, h3⟩ := add_inducing_step_lf lf o a
    obtain ⟨he1, he2⟩ := add_inducing_step_ev lf o a
    by_cases hacc : (add_inducing_step lf o a).acc
    · simp only [ffLoop, if_pos hacc]
      obtain ⟨r1, r2, r3, r4, r5⟩ := ih (add_inducing_step lf o a).lf
        (add_inducing_step lf o a).orc (cnt + 1)
      refine ⟨by rw [r1, h1], by omega, by rw [r3, h2], ?_, ?_⟩
      · intro e he
        simp only [List.mem_cons] at he
        rcases he with rfl | he
        · exact he1
        · exact r4 e he
      · rw [countE_cons, he2, r5, if_pos hacc]
        omega
    · simp only [ffLoop, if_neg hacc]
      refine ⟨h1, h3, h2, ?_, ?_⟩
      · intro e he
        simp only [List.mem_cons, List.not_mem_nil, or_false] at he
        subst he
        exact he1
      · rw [countE_cons, he2]
        simp [Bool.eq_false_iff.mpr hacc, countE]

end LoopLemmas

section AlgorithmLemmas

lemma algorithm_robust_true_mono (lf : LF) (o : Orc) :
    lf.gp.data.length ≤ (algorithm_robust true lf o).lf.gp.data.length ∧
    lf.gp.X.length ≤ (algorithm_robust true lf o).lf.gp.X.length := by
  simp only [algorithm_robust, if_true]
  obtain ⟨hs, _⟩ := snapshot_lf false lf o
  obtain ⟨ha1x, _, ha1d, _⟩ := add_atoms_step_lf (snapshot false lf o).lf
    (snapshot false lf o).orc (snapshot false lf o).snap
  obtain ⟨hld, hlx, _, _⟩ := robustLoop_spec (List.range lf.nloc)
    (add_atoms_step (snapshot false lf o).lf (snapshot false lf o).orc
      (snapshot false lf o).snap).lf
    (add_atoms_step (snapshot false lf o).lf (snapshot false lf o).orc
      (snapshot false lf o).snap).orc
  have h1 := congrArg (fun g : GP => g.data.length) hs
  have h2 := congrArg (fun g : GP => g.X.length) hs
  have h3 := congrArg List.length hld
  have h4 := congrArg List.length ha1x
  simp only at h1 h2 h3 h4
  constructor <;> omega

lemma algorithm_fast_mono (lf : LF) (o : Orc) :
    lf.gp.data.length ≤ (algorithm_fast lf o).lf.gp.data.length ∧
    lf.gp.X.length ≤ (algorithm_fast lf o).lf.gp.X.length := by
  simp only [algorithm_fast]
  obtain ⟨hld, hlx, _, _, _⟩ := fastLoop_spec (List.range lf.nloc) lf o 0
  set l := fastLoop (List.range lf.nloc) lf o 0 with hldef
  have h3 := congrArg List.length hld
  simp only at h3
  split
  · obtain ⟨hs, _⟩ := snapshot_lf false l.lf l.orc
    set s := snapshot false l.lf l.orc with hsdef
    obtain ⟨ha1x, _, ha1d, _⟩ := add_atoms_step_lf s.lf s.orc s.snap
    have h1 := congrArg (fun g : GP => g.data.length) hs
    have h2 := congrArg (fun g : GP => g.X.length) hs
    have h4 := congrArg List.length ha1x
    simp only at h1 h2 h4
    dsimp only
    constructor <;> omega
  · dsimp only
    constructor <;> omega

lemma algorithm_fastfast_mono (lf : LF) (o : Orc) :
    lf.gp.data.length ≤ (algorithm_fastfast lf o).lf.gp.data.length ∧
    lf.gp.X.length ≤ (algorithm_fastfast lf o).lf.gp.X.length := by
  simp only [algorithm_fastfast]
  obtain ⟨hld, hlx, _, _, _⟩ := ffLoop_spec (argsortDesc (take_leakages lf o).1) lf
    (take_leakages lf o).2 0
  set l := ffLoop (argsortDesc (take_leakages lf o).1) lf (take_leakages lf o).2 0
    with hldef
  have h3 := congrArg List.length hld
  simp only at h3
  split
  · obtain ⟨hs, _⟩ := snapshot_lf false l.lf l.orc
    set s := snapshot false l.lf l.orc with hsdef
    obtain ⟨ha1x, _, ha1d, _⟩ := add_atoms_step_lf s.lf s.orc s.snap
    have h1 := congrArg (fun g : GP => g.data.length) hs
    have h2 := congrArg (fun g : GP => g.X.length) hs
    have h4 := congrArg List.length ha1x
    simp only at h1 h2 h4
    dsimp only
    constructor <;> omega
  · dsimp only
    constructor <;> omega

lemma algorithm_ultrafast_mono (lf : LF) (o : Orc) :
    lf.gp.data.length ≤ (algorithm_ultrafast lf o).lf.gp.data.length ∧
    lf.gp.X.length ≤ (algorithm_ultrafast lf o).lf.gp.X.length := by
  simp only [algorithm_ultrafast]
  obtain ⟨hld, hlx, _, _, _⟩ := ffLoop_spec (argsortDesc (take_leakages lf o).1) lf
    (take_leakages lf o).2 0
  set l := ffLoop (argsortDesc (take_leakages lf o).1) lf (take_leakages lf o).2 0
    with hldef
  have h3 := congrArg List.length hld
  simp only at h3
  split
  · obtain ⟨hsf, _⟩ := snapshot_lf true l.lf l.orc
    set sf := snapshot true l.lf l.orc with hsfdef
    obtain ⟨ha1x, _, ha1d, ha1d2⟩ := add_atoms_step_lf sf.lf sf.orc sf.snap
    set a1 := add_atoms_step sf.lf sf.orc sf.snap with ha1def
    have hx1 := congrArg (fun g : GP => g.data.length) hsf
    have hx2 := congrArg (fun g : GP => g.X.length) hsf
    have hx4 := congrArg List.length ha1x
    simp only at hx1 hx2 hx4
    split
    · rename_i hgrew
      obtain ⟨hsr, _⟩ := snapshot_lf false { a1.lf with gp := a1.lf.gp.pop_1data } a1.orc
      set sr := snapshot false { a1.lf with gp := a1.lf.gp.pop_1data } a1.orc with hsrdef
      obtain ⟨ha2x, _, ha2d, _⟩ := add_atoms_step_lf sr.lf sr.orc sr.snap
      have hy1 := congrArg (fun g : GP => g.data.length) hsr
      have hy2 := congrArg (fun g : GP => g.X.length) hsr
      have hy4 := congrArg List.length ha2x
      have hpop : a1.lf.gp.pop_1data.data.length = a1.lf.gp.data.length - 1 := by
        simp [GP.pop_1data]
      have hpopx : a1.lf.gp.pop_1data.X.length = a1.lf.gp.X.length := by
        simp [GP.pop_1data]
      simp only at hy1 hy2 hy4
      dsimp only at hy1 hy2 ⊢
      constructor <;> omega
    · dsimp only
      constructor <;> omega
  · dsimp only
    constructor <;> omega

lemma runAlg_mono (a : Alg) (lf : LF) (o : Orc) :
    lf.gp.data.length ≤ (runAlg a lf o).lf.gp.data.length ∧
    lf.gp.X.length ≤ (runAlg a lf o).lf.gp.X.length := by
  cases a
  · exact algorithm_robust_true_mono lf o
  · exact algorithm_fast_mono lf o
  · exact algorithm_fastfast_mono lf o
  · exact algorithm_ultrafast_mono lf o

lemma update_model_spec (lf : LF) (o : Orc) :
    lf.gp.data.length ≤ (update_model lf o).lf.gp.data.length ∧
    lf.gp.X.length ≤ (update_model lf o).lf.gp.X.length ∧
    (update_model lf o).lf.dataPlus =
      ((update_model lf o).lf.gp.data.length : ℤ) - (lf.gp.data.length : ℤ) ∧
    (update_model lf o).lf.refPlus =
      ((update_model lf o).lf.gp.X.length : ℤ) - (lf.gp.X.length : ℤ) := by
  unfold update_model
  dsimp only [LF.sizes]
  split
  · obtain ⟨h1, h2⟩ := algorithm_robust_true_mono lf o
    exact ⟨h1, h2, rfl, rfl⟩
  · obtain ⟨h1, h2⟩ := runAlg_mono lf.alg lf o
    exact ⟨h1, h2, rfl, rfl⟩

lemma popN_length {α : Type} (n : ℕ) : ∀ l : List α, (popN n l).length = l.length - n := by
  induction n with
  | zero => intro l; simp [popN]
  | succ m ih =>
    intro l
    simp only [popN]
    rw [ih l.dropLast, List.length_dropLast]
    omega

end AlgorithmLemmas

/-- C1: a single `update_model` followed immediately by `undo_update`
restores the surrogate's (training-data count, inducing-point count) pair
to its values before `update_model`, for every controller state, configured
algorithm and oracle. -/
theorem undo_update_left_inverse_sizes (lf : LF) (o : Orc) :
    (undo_update (update_model lf o).lf).lf.sizes = lf.sizes := by
  obtain ⟨h1, h2, h3, h4⟩ := update_model_spec lf o
  unfold undo_update LF.sizes
  simp only [Prod.mk.injEq]
  rw [popN_length, popN_length]
  constructor <;> omega

/-- C4 (amended): `undo_update` pops exactly as many data entries and
inducing entries as the most recent `update_model` added, but always as all
data pops first and then all inducing pops, independent of the insertion
order inside the algorithm. -/
theorem undo_update_pop_counts (lf : LF) (o : Orc) :
    (undo_update (update_model lf o).lf).tr =
      List.replicate ((update_model lf o).lf.gp.data.length - lf.gp.data.length)
        Ev.popData ++
      List.replicate ((update_model lf o).lf.gp.X.length - lf.gp.X.length)
        Ev.popInd := by
  obtain ⟨h1, h2, h3, h4⟩ := update_model_spec lf o
  unfold undo_update
  dsimp only
  have hd : (update_model lf o).lf.dataPlus.toNat =
      (update_model lf o).lf.gp.data.length - lf.gp.data.length := by omega
  have hi : (update_model lf o).lf.refPlus.toNat =
      (update_model lf o).lf.gp.X.length - lf.gp.X.length := by omega
  rw [hd, hi]

/-- C4 (counterexample): with the robust algorithm the training structure
is inserted before the inducing point, yet `undo_update` pops the data
entry first as well — the removal sequence is not the reverse of the
insertion sequence. -/
theorem undo_update_order_counterexample :
    c4m.tr = [Ev.refEval 0, Ev.addAtoms ⟨0, false⟩ true, Ev.addInd 0 1 true] ∧
    (undo_update c4m.lf).tr = [Ev.popData, Ev.popInd] ∧
    ([Ev.popData, Ev.popInd] : List Ev) ≠ [Ev.popInd, Ev.popData] := by
  refine ⟨by decide, by decide, by decide⟩

/-- C10: `undo_update` leaves `data_plus`/`ref_plus` untouched, so an
immediately repeated `undo_update` pops the same numbers of entries again
(the same pop sequence, removing entries from before the update, silently);
only `update_model` reassigns the counts. -/
theorem undo_update_counts_persist (lf : LF) (o : Orc) :
    (undo_update (update_model lf o).lf).lf.dataPlus =
      (update_model lf o).lf.dataPlus ∧
    (undo_update (update_model lf o).lf).lf.refPlus =
      (update_model lf o).lf.refPlus ∧
    (undo_update (undo_update (update_model lf o).lf).lf).tr =
      (undo_update (update_model lf o).lf).tr ∧
    (undo_update (undo_update (update_model lf o).lf).lf).lf.gp.data.length =
      lf.gp.data.length - (update_model lf o).lf.dataPlus.toNat ∧
    (undo_update (undo_update (update_model lf o).lf).lf).lf.gp.X.length =
      lf.gp.X.length - (update_model lf o).lf.refPlus.toNat := by
  obtain ⟨h1, h2, h3, h4⟩ := update_model_spec lf o
  refine ⟨rfl, rfl, rfl, ?_, ?_⟩ <;>
    · unfold undo_update
      dsimp only
      rw [popN_length, popN_length]
      omega

/-- C3: with at least 3 recorded energies, `doit` flags an extremum (appends
the current step to `ext_steps`) exactly when the last two energy
differences have opposite signs and the immediately preceding step was not
itself flagged; otherwise `ext_steps` is unchanged. -/
theorem doit_extremum_iff (prob : ℚ) (lf : LF) (o : Orc)
    (h : 3 ≤ lf.energy.length) :
    ((doit prob lf o).lf.ext = lf.ext ++ [lf.step] ↔
      ((lf.energy.getD (lf.energy.length - 1) 0 -
          lf.energy.getD (lf.energy.length - 2) 0) *
        (lf.energy.getD (lf.energy.length - 2) 0 -
          lf.energy.getD (lf.energy.length - 3) 0) < 0 ∧
        ¬(lf.ext ≠ [] ∧ lf.step = lf.ext.getLastD 0 + 1))) ∧
    (¬((lf.energy.getD (lf.energy.length - 1) 0 -
          lf.energy.getD (lf.energy.length - 2) 0) *
        (lf.energy.getD (lf.energy.length - 2) 0 -
          lf.energy.getD (lf.energy.length - 3) 0) < 0 ∧
        ¬(lf.ext ≠ [] ∧ lf.step = lf.ext.getLastD 0 + 1)) →
      (doit prob lf o).lf.ext = lf.ext) := by
  have hiff : (lf.ext ≠ [] ∧ (lf.step : ℤ) - (lf.ext.getLastD 0 : ℤ) = 1) ↔
      (lf.ext ≠ [] ∧ lf.step = lf.ext.getLastD 0 + 1) := by
    constructor <;> rintro ⟨h1, h2⟩ <;> exact ⟨h1, by omega⟩
  have hne : lf.ext ≠ lf.ext ++ [lf.step] := by simp
  simp only [doit, if_pos h]
  by_cases hp : (lf.energy.getD (lf.energy.length - 1) 0 -
      lf.energy.getD (lf.energy.length - 2) 0) *
      (lf.energy.getD (lf.energy.length - 2) 0 -
        lf.energy.getD (lf.energy.length - 3) 0) < 0
  · rw [if_pos hp]
    by_cases hs : lf.ext ≠ [] ∧ (lf.step : ℤ) - (lf.ext.getLastD 0 : ℤ) = 1
    · rw [if_pos hs]
      have hs' := hiff.mp hs
      simp only [Bool.false_eq_true, if_false]
      simp only [apply_ite DOut.lf, ite_self]
      exact ⟨⟨fun hEq => absurd hEq hne, fun hr => (hr.2 hs').elim⟩, fun _ => trivial⟩
    · rw [if_neg hs]
      have hns : ¬(lf.ext ≠ [] ∧ lf.step = lf.ext.getLastD 0 + 1) :=
        fun hn => hs (hiff.mpr hn)
      simp only [if_pos rfl]
      simp only [apply_ite DOut.lf, ite_self]
      exact ⟨⟨fun _ => ⟨hp, hns⟩, fun _ => rfl⟩,
             fun hc => (hc ⟨hp, hns⟩).elim⟩
  · rw [if_neg hp]
    simp only [Bool.false_eq_true, if_false]
    simp only [apply_ite DOut.lf, ite_self]
    exact ⟨⟨fun hEq => absurd hEq hne, fun hr => (hp hr.1).elim⟩, fun _ => trivial⟩

/-- C3 witness: energies `[1,2,1]` at step 2 flag an extremum; the adjacent
candidate at step 3 with energies `[1,2,1,2]` and `ext_steps = [2]` is
suppressed. -/
theorem doit_extremum_iff_witness :
    (doit 1 c3lfA c3orc).lf.ext = c3lfA.ext ++ [c3lfA.step] ∧
    (doit 1 c3lfB c3orc).lf.ext = c3lfB.ext := by
  constructor
  · exact (doit_extremum_iff 1 c3lfA c3orc (by norm_num [c3lfA])).1.mpr
      (by norm_num [c3lfA, List.getD])
  · exact (doit_extremum_iff 1 c3lfB c3orc (by norm_num [c3lfB])).2
      (by norm_num [c3lfB, List.getD, List.getLastD])

/-- C5: the FAST algorithm performs a reference evaluation and invokes a
training-data insertion exactly when at least one inducing-insertion
attempt reached the significance threshold; when none did, no reference
evaluation happens and the training data is unchanged. -/
theorem algorithm_fast_ref_iff (lf : LF) (o : Orc) :
    ((0 < countE isRef (algorithm_fast lf o).tr) ↔
      0 < countE isAccInd (algorithm_fast lf o).tr) ∧
    ((0 < countE isAddAtoms (algorithm_fast lf o).tr) ↔
      0 < countE isAccInd (algorithm_fast lf o).tr) ∧
    (countE isAccInd (algorithm_fast lf o).tr = 0 →
      (algorithm_fast lf o).lf.gp.data = lf.gp.data ∧
      countE isRef (algorithm_fast lf o).tr = 0) := by
  obtain ⟨hld, hlx, hsid, hind, hcnt⟩ := fastLoop_spec (List.range lf.nloc) lf o 0
  have hindRef : countE isRef (fastLoop (List.range lf.nloc) lf o 0).tr = 0 :=
    countE_eq_zero (fun e he => (isInd_not_other (hind e he)).1)
  have hindAdd : countE isAddAtoms (fastLoop (List.range lf.nloc) lf o 0).tr = 0 :=
    countE_eq_zero (fun e he => (isInd_not_other (hind e he)).2.1)
  simp only [algorithm_fast]
  split
  · rename_i hpos
    dsimp only
    rw [snapshot_tr_real, add_atoms_step_tr]
    simp only [countE_append, hindRef, hindAdd]
    have c1 : ∀ x, countE isRef [Ev.refEval x] = 1 := fun x => by simp [countE, isRef]
    have c2 : ∀ x, countE isAddAtoms [Ev.refEval x] = 0 := fun x => by
      simp [countE, isAddAtoms]
    have c3 : ∀ x, countE isAccInd [Ev.refEval x] = 0 := fun x => by
      simp [countE, isAccInd]
    have c4 : ∀ s b, countE isRef [Ev.addAtoms s b] = 0 := fun s b => by
      simp [countE, isRef]
    have c5 : ∀ s b, countE isAddAtoms [Ev.addAtoms s b] = 1 := fun s b => by
      simp [countE, isAddAtoms]
    have c6 : ∀ s b, countE isAccInd [Ev.addAtoms s b] = 0 := fun s b => by
      simp [countE, isAccInd]
    rw [c1, c2, c3, c4, c5, c6]
    refine ⟨by omega, by omega, fun hz => absurd hpos (by omega)⟩
  · rename_i hneg
    dsimp only
    have hz : countE isAccInd (fastLoop (List.range lf.nloc) lf o 0).tr = 0 := by omega
    rw [hz, hindRef]
    exact ⟨Iff.rfl, by rw [hindAdd], fun _ => ⟨hld, rfl⟩⟩

/-- C5 witness: a concrete fast-algorithm run in which one inducing attempt
reached the threshold, so a reference evaluation happened. -/
theorem algorithm_fast_ref_iff_witness :
    0 < countE isRef (algorithm_fast c5lf c5orc).tr ∧
    0 < countE isAccInd (algorithm_fast c5lf c5orc).tr :=
  ⟨(algorithm_fast_ref_iff c5lf c5orc).1.mpr (by decide), by decide⟩

/-- C6: in the ULTRAFAST algorithm, a fake snapshot is tentatively inserted
exactly when some inducing attempt reached the threshold; the tentative
insertion is popped exactly when it actually grew the training data, and a
(single) real reference evaluation happens exactly in that case, followed
by the insertion of the real snapshot of the same structure; with no growth
of the tentative insertion, no reference evaluation happens at all. -/
theorem algorithm_ultrafast_spec (lf : LF) (o : Orc) :
    ((0 < countE isFakeAdd (algorithm_ultrafast lf o).tr) ↔
      0 < countE isAccInd (algorithm_ultrafast lf o).tr) ∧
    ((0 < countE isPopData (algorithm_ultrafast lf o).tr) ↔
      0 < countE isFakeAddAcc (algorithm_ultrafast lf o).tr) ∧
    countE isRef (algorithm_ultrafast lf o).tr =
      countE isPopData (algorithm_ultrafast lf o).tr ∧
    (0 < countE isPopData (algorithm_ultrafast lf o).tr →
      0 < countE (isRealAddOf lf.sid) (algorithm_ultrafast lf o).tr) := by
  obtain ⟨hld, hlx, hsid, hind, hcnt⟩ :=
    ffLoop_spec (argsortDesc (take_leakages lf o).1) lf (take_leakages lf o).2 0
  simp only [algorithm_ultrafast]
  set l := ffLoop (argsortDesc (take_leakages lf o).1) lf (take_leakages lf o).2 0
    with hldef
  have z1 : countE isFakeAdd l.tr = 0 :=
    countE_eq_zero (fun e he => (isInd_not_other (hind e he)).2.2.2.2.1)
  have z2 : countE isFakeAddAcc l.tr = 0 :=
    countE_eq_zero (fun e he => (isInd_not_other (hind e he)).2.2.2.2.2.1)
  have z3 : countE isPopData l.tr = 0 :=
    countE_eq_zero (fun e he => (isInd_not_other (hind e he)).2.2.1)
  have z4 : countE isRef l.tr = 0 :=
    countE_eq_zero (fun e he => (isInd_not_other (hind e he)).1)
  have z5 : countE (isRealAddOf lf.sid) l.tr = 0 :=
    countE_eq_zero (fun e he => (isInd_not_other (hind e he)).2.2.2.2.2.2 lf.sid)
  split
  · rename_i hpos
    set sf := snapshot true l.lf l.orc with hsfdef
    set a1 := add_atoms_step sf.lf sf.orc sf.snap with ha1def
    have hsfgp : sf.lf.gp = l.lf.gp := (snapshot_lf true l.lf l.orc).1
    have hsfsid : sf.lf.sid = l.lf.sid := (snapshot_lf true l.lf l.orc).2
    have hsfsnap : sf.snap = ⟨l.lf.sid, true⟩ := snapshot_snap true l.lf l.orc
    have hsftr : sf.tr = [] := snapshot_tr_fake l.lf l.orc
    have ha1len : a1.lf.gp.data.length =
        sf.lf.gp.data.length + (if sf.orc.accepts.headD false then 1 else 0) :=
      add_atoms_step_data_of_acc sf.lf sf.orc sf.snap
    have hsflen : sf.lf.gp.data.length = l.lf.gp.data.length :=
      congrArg (fun g : GP => g.data.length) hsfgp
    have ha1sid : a1.lf.sid = sf.lf.sid := (add_atoms_step_lf sf.lf sf.orc sf.snap).2.1
    split
    · rename_i hgrew
      have hb : sf.orc.accepts.headD false = true := by
        by_cases hb : sf.orc.accepts.headD false = true
        · exact hb
        · exfalso
          rw [if_neg hb] at ha1len
          omega
      have t2 : a1.tr = [Ev.addAtoms ⟨l.lf.sid, true⟩ true] := by
        rw [ha1def, add_atoms_step_tr, hsfsnap, hb]
      have hsrsid : ({ a1.lf with gp := a1.lf.gp.pop_1data } : LF).sid = lf.sid :=
        calc ({ a1.lf with gp := a1.lf.gp.pop_1data } : LF).sid = a1.lf.sid := rfl
          _ = lf.sid := by rw [ha1sid, hsfsid, hsid]
      have t3 : (snapshot false { a1.lf with gp := a1.lf.gp.pop_1data } a1.orc).tr =
          [Ev.refEval lf.sid] := by
        rw [snapshot_tr_real, hsrsid]
      have hsrsnap : (snapshot false { a1.lf with gp := a1.lf.gp.pop_1data } a1.orc).snap
          = ⟨lf.sid, false⟩ := by
        rw [snapshot_snap, hsrsid]
      have t4 : (add_atoms_step
          (snapshot false { a1.lf with gp := a1.lf.gp.pop_1data } a1.orc).lf
          (snapshot false { a1.lf with gp := a1.lf.gp.pop_1data } a1.orc).orc
          (snapshot false { a1.lf with gp := a1.lf.gp.pop_1data } a1.orc).snap).tr =
          [Ev.addAtoms ⟨lf.sid, false⟩
            ((snapshot false { a1.lf with gp := a1.lf.gp.pop_1data } a1.orc).orc.accepts.headD
              false)] := by
        rw [add_atoms_step_tr, hsrsnap]
      dsimp only
      rw [hsftr, t2, t3, t4]
      simp only [countE] at hcnt
      simp only [countE_append, z1, z2, z3, z4, z5]
      simp [countE, isFakeAdd, isFakeAddAcc, isPopData, isRef, isAccInd,
        isRealAddOf, hsid]
      omega
    · rename_i hngrew
      have hb : sf.orc.accepts.headD false = false := by
        by_cases hb : sf.orc.accepts.headD false = true
        · exfalso
          rw [if_pos hb] at ha1len
          omega
        · simpa using hb
      have t2 : a1.tr = [Ev.addAtoms ⟨l.lf.sid, true⟩ false] := by
        rw [ha1def, add_atoms_step_tr, hsfsnap, hb]
      dsimp only
      rw [hsftr, t2]
      simp only [countE] at hcnt
      simp only [countE_append, z1, z2, z3, z4, z5]
      simp [countE, isFakeAdd, isFakeAddAcc, isPopData, isRef, isAccInd,
        isRealAddOf, hsid]
      omega
  · rename_i hneg
    have hz : countE isAccInd l.tr = 0 := by omega
    dsimp only
    rw [z1, z2, z3, z4, hz]
    simp

/-- C6 witness: a concrete ultrafast run whose tentative fake insertion
grew the data, so it was popped and followed by exactly one reference
evaluation and the insertion of the real snapshot of the same structure. -/
theorem algorithm_ultrafast_spec_witness :
    0 < countE isPopData (algorithm_ultrafast c5lf c6orc).tr ∧
    0 < countE (isRealAddOf c5lf.sid) (algorithm_ultrafast c5lf c6orc).tr ∧
    countE isRef (algorithm_ultrafast c5lf c6orc).tr = 1 :=
  ⟨by decide,
   (algorithm_ultrafast_spec c5lf c6orc).2.2.2 (by decide),
   by decide⟩

section RunUpdatesLemmas

lemma countE_isUD_snapshot (fake : Bool) (lf : LF) (o : Orc) :
    countE isUD (snapshot fake lf o).tr = 0 := by
  cases fake <;> simp [snapshot, countE, isUD]

lemma countE_isUD_add_atoms (lf : LF) (o : Orc) (s : Snap) :
    countE isUD (add_atoms_step lf o s).tr = 0 := by
  simp [add_atoms_step, countE, isUD]

lemma countE_isUD_robust (df : Bool) (lf : LF) (o : Orc) :
    countE isUD (algorithm_robust df lf o).tr = 0 := by
  have hz : ∀ (lfx : LF) (ox : Orc),
      countE isUD (robustLoop (List.range lf.nloc) lfx ox).tr = 0 := fun lfx ox =>
    countE_eq_zero (fun e he =>
      (isInd_not_other ((robustLoop_spec (List.range lf.nloc) lfx ox).2.2.2 e he)).2.2.2.1)
  cases df <;>
    simp [algorithm_robust, countE_append, countE_isUD_snapshot,
      countE_isUD_add_atoms, hz]

lemma countE_isUD_fast (lf : LF) (o : Orc) :
    countE isUD (algorithm_fast lf o).tr = 0 := by
  have hz : countE isUD (fastLoop (List.range lf.nloc) lf o 0).tr = 0 :=
    countE_eq_zero (fun e he =>
      (isInd_not_other ((fastLoop_spec (List.range lf.nloc) lf o 0).2.2.2.1 e he)).2.2.2.1)
  simp only [algorithm_fast]
  split <;> simp [countE_append, countE_isUD_snapshot, countE_isUD_add_atoms, hz]

lemma countE_isUD_fastfast (lf : LF) (o : Orc) :
    countE isUD (algorithm_fastfast lf o).tr = 0 := by
  have hz : countE isUD
      (ffLoop (argsortDesc (take_leakages lf o).1) lf (take_leakages lf o).2 0).tr = 0 :=
    countE_eq_zero (fun e he =>
      (isInd_not_other ((ffLoop_spec (argsortDesc (take_leakages lf o).1) lf
        (take_leakages lf o).2 0).2.2.2.1 e he)).2.2.2.1)
  simp only [algorithm_fastfast]
  split <;> simp [countE_append, countE_isUD_snapshot, countE_isUD_add_atoms, hz]

lemma countE_isUD_ultrafast (lf : LF) (o : Orc) :
    countE isUD (algorithm_ultrafast lf o).tr = 0 := by
  have hz : countE isUD
      (ffLoop (argsortDesc (take_leakages lf o).1) lf (take_leakages lf o).2 0).tr = 0 :=
    countE_eq_zero (fun e he =>
      (isInd_not_other ((ffLoop_spec (argsortDesc (take_leakages lf o).1) lf
        (take_leakages lf o).2 0).2.2.2.1 e he)).2.2.2.1)
  have cpop : countE isUD [Ev.popData] = 0 := by simp [countE, isUD]
  simp only [algorithm_ultrafast]
  split
  · split <;>
      · dsimp only
        simp only [countE_append, countE_isUD_snapshot, countE_isUD_add_atoms,
          hz, cpop]
  · simpa using hz

lemma countUD_update_model (lf : LF) (o : Orc) :
    countUD (update_model lf o).tr = 0 := by
  rw [countUD_eq]
  unfold update_model
  dsimp only
  split
  · exact countE_isUD_robust true lf o
  · cases lf.alg
    · exact countE_isUD_robust true lf o
    · exact countE_isUD_fast lf o
    · exact countE_isUD_fastfast lf o
    · exact countE_isUD_ultrafast lf o

end RunUpdatesLemmas

lemma countE_isUD_updateDone (b : Bool) : countE isUD [Ev.updateDone b] = 1 := by
  simp [countE, isUD]

lemma run_updates_aux_spec (maxu : ℕ) (prob : ℚ) :
    ∀ (ins : List StepIn) (lf : LF) (o : Orc) (steps updates : ℕ)
      (stresses : List (List ℚ)) (tr : List Ev) (out : ROut),
      updates ≤ maxu → countUD tr = updates →
      run_updates_aux maxu prob ins lf o steps updates stresses tr = some out →
      out.updates = maxu ∧ countUD out.tr = maxu ∧
      out.res = ((out.steps : ℚ) / (out.updates : ℚ),
                 qMean (lastN out.steps out.lf.energy),
                 qMean (lastN out.steps out.lf.temperature),
                 stressMean out.stresses) := by
  intro ins
  induction ins with
  | nil =>
    intro lf o steps updates stresses tr out hle hc hrun
    rw [run_updates_aux] at hrun
    by_cases h : updates < maxu
    · rw [if_pos h] at hrun
      exact absurd hrun (by simp)
    · rw [if_neg h] at hrun
      have heq : updates = maxu := by omega
      obtain rfl := Option.some.inj hrun
      exact ⟨heq, hc.trans heq, rfl⟩
  | cons s rest ih =>
    intro lf o steps updates stresses tr out hle hc hrun
    rw [run_updates_aux] at hrun
    by_cases h : updates < maxu
    · rw [if_pos h] at hrun
      dsimp only at hrun
      by_cases hp : 0 < prob
      · rw [if_pos hp] at hrun
        by_cases hb : (doit prob lf o).b = true
        · rw [if_pos hb] at hrun
          dsimp only at hrun
          refine ih _ _ _ _ _ _ _ (by omega) ?_ hrun
          have h1 : countE isUD
              (update_model (doit prob lf o).lf (doit prob lf o).orc).tr = 0 := by
            rw [← countUD_eq]
            exact countUD_update_model _ _
          rw [countUD_eq] at hc ⊢
          rw [countE_append, countE_append, h1, countE_isUD_updateDone]
          omega
        · rw [if_neg hb] at hrun
          dsimp only at hrun
          exact ih _ _ _ _ _ _ _ hle hc hrun
      · rw [if_neg hp] at hrun
        dsimp only at hrun
        exact ih _ _ _ _ _ _ _ hle hc hrun
    · rw [if_neg h] at hrun
      have heq : updates = maxu := by omega
      obtain rfl := Option.some.inj hrun
      exact ⟨heq, hc.trans heq, rfl⟩

/-- C2 (amended): `run_updates` advances the simulation until exactly
`maxupdates` update attempts (calls of `update_model` after a positive
`doit` decision) have occurred — the counter is incremented on every
attempt, whether or not the model grew — and it returns steps-per-update,
the mean of the last `steps` energies, the mean temperature, and the
componentwise mean stress, computed over the run. -/
theorem run_updates_spec (maxu : ℕ) (prob : ℚ) (lf : LF) (o : Orc)
    (ins : List StepIn) (out : ROut)
    (h : run_updates maxu prob lf o ins = some out) :
    out.updates = maxu ∧ countUD out.tr = maxu ∧
    out.res = ((out.steps : ℚ) / (out.updates : ℚ),
               qMean (lastN out.steps out.lf.energy),
               qMean (lastN out.steps out.lf.temperature),
               stressMean out.stresses) :=
  run_updates_aux_spec maxu prob ins lf o 0 0 [] [] out (Nat.zero_le _) rfl h

/-- C2 witness: a one-step, one-update run through `run_updates`. -/
theorem run_updates_spec_witness :
    c2out.updates = 1 ∧ countUD c2out.tr = 1 :=
  have h := run_updates_spec 1 1 c2lf c2orc c2ins c2out rfl
  ⟨h.1, h.2.1⟩

/-- C2 (counterexample): in this run the update counter reaches 1 although
the model never grew — final training-data and inducing counts (1, 2) equal
the initial ones — so the counter does not count model growths. -/
theorem run_updates_counterexample :
    (run_updates 1 1 c2lf c2orc c2ins).elim (0, 0, 0) sizesUpdates = (1, 1, 2) ∧
    c2lf.gp.data.length = 1 ∧ c2lf.gp.X.length = 2 := by
  refine ⟨by decide, by decide, by decide⟩

/-- C7: the left-gradient of the pair distance similarity scatters each
pair's contribution onto its two endpoint atoms with opposite signs, so the
per-atom 3-vectors sum to the zero vector over all atoms of `p`
(translational invariance). -/
theorem dsLeftgrad_sum_zero (kL : ℚ → ℚ → ℚ) (n : ℕ) (ps : List (PairS n))
    (qd : List ℚ) :
    (∑ a, dsLeftgrad kL ps qd a) = (0 : Vec3) := by
  unfold dsLeftgrad
  rw [sum_indexAdd, sum_indexAdd]
  simp only [List.map_map, Function.comp_def]
  rw [sum_map_neg_vec]
  simp

/-- C8: the repulsive-core pair similarity with `eta = 1` coincides exactly
with the Coulomb pair similarity, both in its value and in its
left-gradient. -/
theorem repulsive_core_eta_one (kern kL : ℚ → ℚ → ℚ) (n : ℕ) (ps : List (PairS n))
    (pd qd : List ℚ) :
    repulsiveFunc 1 kern pd qd = coulombFunc kern pd qd ∧
    repulsiveLeftgrad 1 kern kL ps qd = coulombLeftgrad kern kL ps qd := by
  constructor
  · unfold repulsiveFunc coulombFunc
    simp [zpow_one]
  · unfold repulsiveLeftgrad coulombLeftgrad
    funext a
    simp [zpow_one]

/-- C9: on a nonzero relative-position vector the log-distance descriptor
returns `ln |r|` together with the gradient `r / |r|^2` — the un-logged
squared distance in the denominator. -/
theorem logDistance_descriptor_spec (r : ℝ × ℝ × ℝ) (h : r ≠ (0, 0, 0)) :
    logDistanceDescriptor r =
      (Real.log (rawDistance r),
       (r.1 / normSq r, r.2.1 / normSq r, r.2.2 / normSq r)) := by
  unfold logDistanceDescriptor rawDistance normSq
  dsimp only
  have hnn : (0 : ℝ) ≤ r.1 ^ 2 + r.2.1 ^ 2 + r.2.2 ^ 2 := by positivity
  rw [Real.sq_sqrt hnn]

/-- C9 witness: on `r = (3,4,0)` the descriptor yields `ln 5` and gradient
`(3,4,0)/25`. -/
theorem logDistance_descriptor_witness :
    ((3, 4, 0) : ℝ × ℝ × ℝ) ≠ (0, 0, 0) ∧
    logDistanceDescriptor (3, 4, 0) = (Real.log 5, (3 / 25, 4 / 25, 0)) := by
  have hne : ((3, 4, 0) : ℝ × ℝ × ℝ) ≠ (0, 0, 0) := by
    intro hcon
    rw [Prod.mk.injEq, Prod.mk.injEq] at hcon
    exact absurd hcon.1 (by norm_num)
  refine ⟨hne, ?_⟩
  rw [logDistance_descriptor_spec (3, 4, 0) hne]
  have h5 : rawDistance (3, 4, 0) = 5 := by
    unfold rawDistance
    rw [show ((3 : ℝ) ^ 2 + (4 : ℝ) ^ 2 + (0 : ℝ) ^ 2) = 5 ^ 2 by norm_num]
    exact Real.sqrt_sq (by norm_num)
  have hS : normSq ((3 : ℝ), (4 : ℝ), (0 : ℝ)) = 25 := by
    unfold normSq
    norm_num
  rw [h5, hS]
  norm_num
